import Mathlib

/-!
Shallow embedding of the maglibrarian ingestion-to-organization pipeline
(src/monitor.py, src/ingest.py, src/identifier.py, src/providers.py,
src/organizer.py, src/main.py) together with theorems checking the
natural-language specification against it.

Python strings are `String`, `None`-able strings are `Option String`,
Python truthiness of such a value is `strTruthy`.  Times are `Int`
(the code compares float differences against a duration; integer time
keeps the comparisons exact).  Fuzzy match scores are `ℚ` since
`(title_score + author_score) / 2` is float division in the source.
External effects (filesystem, network) are explicit parameters or
action traces.
-/

/-- Python truthiness of an optional string: `None` and `""` are falsy. -/
def strTruthy : Option String → Bool
  | none => false
  | some s => s ≠ ""

/-- `str.lower()` (ASCII, as used on titles/authors before fuzzy matching). -/
def pyLower (s : String) : String :=
  ⟨s.data.map Char.toLower⟩

/-- `str.strip()`: drop whitespace from both ends. -/
def pyStrip (s : String) : String :=
  ⟨(s.data.dropWhile Char.isWhitespace).reverse.dropWhile Char.isWhitespace |>.reverse⟩

/-- Index (from the start) of the last occurrence of `c`, if any. -/
def lastIndexOf (c : Char) : List Char → Option Nat
  | [] => none
  | x :: xs =>
    match lastIndexOf c xs with
    | some i => some (i + 1)
    | none => if x = c then some 0 else none

/-- `os.path.basename`: the part after the last slash. -/
def pyBasename (s : String) : String :=
  match lastIndexOf '/' s.data with
  | none => s
  | some i => ⟨s.data.drop (i + 1)⟩

/-- `os.path.splitext` on a path: split the part after the last slash at its
last dot, unless every character before that dot (within the base name) is a
dot.  Returns (stem, extension-with-dot). -/
def pySplitext (s : String) : String × String :=
  let chars := s.data
  let start := match lastIndexOf '/' chars with
    | none => 0
    | some i => i + 1
  let base := chars.drop start
  match lastIndexOf '.' base with
  | none => (s, "")
  | some j =>
    if (base.take j).all (· = '.') then (s, "")
    else (⟨chars.take (start + j)⟩, ⟨base.drop j⟩)

/-- Stem part of `os.path.splitext`. -/
def pySplitextStem (s : String) : String := (pySplitext s).1

/-- Extension part of `os.path.splitext`. -/
def pySplitextExt (s : String) : String := (pySplitext s).2

/-! ## src/identifier.py : IdentificationResult -/

/-- The pydantic model `IdentificationResult` of src/identifier.py with every
declared field.  `confidence` is `ℚ` because the aggregator assigns it the
(possibly half-integral) fuzzy score. -/
structure IdentificationResult where
  title : Option String := none
  author : Option String := none
  year : Option String := none
  series : Option String := none
  series_part : Option String := none
  narrator : Option String := none
  asin : Option String := none
  isbn : Option String := none
  confidence : ℚ := 0
  source : String := "unknown"
  description : Option String := none
  publisher : Option String := none
  cover_url : Option String := none
  openlibrary_id : Option String := none
  album : Option String := none
  deriving Repr, DecidableEq

/-- `IdentificationResult()` with all defaults. -/
def IdentificationResult.empty : IdentificationResult := {}

/-! ## src/identifier.py : Identifier -/

/-- Caseless-prefix test used to model `re.IGNORECASE` literal matching. -/
def isCaselessPrefix (w s : List Char) : Bool :=
  (s.take w.length).map Char.toLower == w.map Char.toLower

/-- Fuel-bounded scanner for `re.sub(r'\[.*?\]', '', s)`-style removal:
each opening delimiter is matched lazily to the nearest closing delimiter
and the span is removed; an opening delimiter with no later closing
delimiter stays.  Every step consumes at least one character, so fuel
`length + 1` makes the bound inert. -/
def removeDelimF (o c : Char) : Nat → List Char → List Char
  | 0, l => l
  | _ + 1, [] => []
  | fuel + 1, x :: xs =>
    if x = o then
      match xs.findIdx? (· = c) with
      | some k => removeDelimF o c fuel (xs.drop (k + 1))
      | none => x :: xs
    else x :: removeDelimF o c fuel xs

/-- `re.sub(r'\[.*?\]', '', s)`-style removal (see `removeDelimF`). -/
def removeDelim (o c : Char) (l : List Char) : List Char :=
  removeDelimF o c (l.length + 1) l

/-- Fuel-bounded scanner for `re.sub(word, '', s, flags=re.IGNORECASE)` on
a literal word: left-to-right, non-overlapping, case-insensitive removal. -/
def removeCaselessF (w : List Char) : Nat → List Char → List Char
  | 0, l => l
  | _ + 1, [] => []
  | fuel + 1, x :: xs =>
    if w ≠ [] ∧ isCaselessPrefix w (x :: xs) then
      removeCaselessF w fuel ((x :: xs).drop w.length)
    else x :: removeCaselessF w fuel xs

/-- `re.sub(word, '', s, flags=re.IGNORECASE)` (see `removeCaselessF`). -/
def removeCaseless (w : List Char) (l : List Char) : List Char :=
  removeCaselessF w (l.length + 1) l

/-- Fuel-bounded scanner for `re.sub(r'\d+' ++ sep, '', s, re.IGNORECASE)`
with a literal suffix `sep`: a maximal digit run immediately followed by
the caseless literal `sep` is removed; other characters are kept. -/
def removeNumSepF (sep : List Char) : Nat → List Char → List Char
  | 0, l => l
  | _ + 1, [] => []
  | fuel + 1, x :: xs =>
    if x.isDigit then
      if sep ≠ [] ∧ isCaselessPrefix sep ((x :: xs).dropWhile Char.isDigit) then
        removeNumSepF sep fuel (((x :: xs).dropWhile Char.isDigit).drop sep.length)
      else (x :: xs).takeWhile Char.isDigit ++
           removeNumSepF sep fuel ((x :: xs).dropWhile Char.isDigit)
    else x :: removeNumSepF sep fuel xs

/-- `re.sub(r'\d+' ++ sep, '', s, re.IGNORECASE)` (see `removeNumSepF`). -/
def removeNumSep (sep : List Char) (l : List Char) : List Char :=
  removeNumSepF sep (l.length + 1) l

/-- Fuel-bounded scanner for Python `str.split(sep)`: split at every
leftmost non-overlapping occurrence of the (non-empty) separator. -/
def pySplitF (sep : List Char) : Nat → List Char → List Char → List (List Char)
  | 0, _, cur => [cur]
  | fuel + 1, s, cur =>
    if sep ≠ [] ∧ sep.isPrefixOf s then
      cur :: pySplitF sep fuel (s.drop sep.length) []
    else
      match s with
      | [] => [cur]
      | x :: xs => pySplitF sep fuel xs (cur ++ [x])

/-- Python `str.split(sep)` for a non-empty separator. -/
def pySplit (sep s : String) : List String :=
  (pySplitF sep.data (s.data.length + 1) s.data []).map (fun l => ⟨l⟩)

namespace Identifier

/-- The noise-pattern pipeline of `Identifier.__init__`/`_extract_from_string`:
the patterns `\[.*?\]`, `\(.*?\)`, `\d+kbps`, `\d+ kbps`, `Unabridged`,
`Abridged`, `Audiobook` are substituted by the empty string in this order,
case-insensitively. -/
def stripNoise (s : String) : String :=
  let l1 := removeDelim '[' ']' s.data
  let l2 := removeDelim '(' ')' l1
  let l3 := removeNumSep "kbps".data l2
  let l4 := removeNumSep " kbps".data l3
  let l5 := removeCaseless "Unabridged".data l4
  let l6 := removeCaseless "Abridged".data l5
  let l7 := removeCaseless "Audiobook".data l6
  ⟨l7⟩

/-- The cleaning pipeline at the head of `Identifier._extract_from_string`:
drop the extension, strip the noise patterns, turn underscores into spaces,
trim. -/
def cleanedText (text : String) : String :=
  pyStrip ⟨(stripNoise (pySplitextStem text)).data.map
    (fun ch => if ch = '_' then ' ' else ch)⟩

/-- `Identifier._extract_from_string`: drop the extension, strip noise
patterns, turn underscores into spaces, trim, then either split on `" - "`
(first part to author, second to title) or use the whole text as title. -/
def extractFromString (text : String) : IdentificationResult :=
  let t3 := cleanedText text
  match pySplit " - " t3 with
  | p0 :: p1 :: _ =>
    { IdentificationResult.empty with
        source := "filename"
        author := some (pyStrip p0)
        title := some (pyStrip p1) }
  | _ =>
    { IdentificationResult.empty with
        source := "filename"
        title := some (pyStrip t3) }

/-- `Identifier._is_audio`. -/
def isAudio (filepath : String) : Bool :=
  ([".mp3", ".m4b", ".m4a", ".flac", ".opus", ".wma"] : List String).contains
    (pyLower (pySplitextExt filepath))

/-- The tag-probing loop of `Identifier.identify`: walk the files in order,
overwrite the running result with the extraction of every audio file, and
stop as soon as one yields both a truthy title and a truthy author.
`extract` stands for `Identifier._extract_from_tags` (external tag I/O). -/
def tagLoop (extract : String → IdentificationResult)
    (acc : IdentificationResult) : List String → IdentificationResult
  | [] => acc
  | f :: rest =>
    if isAudio f then
      let r := extract f
      if strTruthy r.title && strTruthy r.author then r
      else tagLoop extract r rest
    else tagLoop extract acc rest

/-- `Identifier._merge_results`: tag fields win when truthy, filename fields
fill the gaps for title/author/year; asin and narrator come from tags only. -/
def mergeResults (tags filename : IdentificationResult) : IdentificationResult :=
  { IdentificationResult.empty with
      source := "merged"
      title := if strTruthy tags.title then tags.title else filename.title
      author := if strTruthy tags.author then tags.author else filename.author
      year := if strTruthy tags.year then tags.year else filename.year
      asin := tags.asin
      narrator := tags.narrator }

/-- `Identifier.identify`.  `none` models the `IndexError` raised by
`files[0]` when the directory name is a placeholder and `files` is empty. -/
def identify (extract : String → IdentificationResult)
    (dirpath : String) (files : List String) : Option IdentificationResult :=
  let tagResult := tagLoop extract IdentificationResult.empty files
  let pathName := pyBasename dirpath
  let pathName? : Option String :=
    if pathName = "" || (["." , "root", "input"] : List String).contains pathName then
      files.head?.map pyBasename
    else some pathName
  pathName?.map fun p => mergeResults tagResult (extractFromString p)

end Identifier

/-! ## src/providers.py : providers and MetadataAggregator -/

/-- The fields of an OpenLibrary search document that
`OpenLibraryProvider._parse_doc` reads (each one reached through
`doc.get`, hence optional). -/
structure OLDoc where
  title : Option String := none
  author_name : Option (List (Option String)) := none
  first_publish_year : Option Nat := none
  isbn : Option (List (Option String)) := none
  key : Option String := none
  id_amazon : Option (List String) := none

namespace OpenLibraryProvider

/-- `OpenLibraryProvider._parse_doc`: build an IdentificationResult from a
search document; every field access uses `.get`, so an absent `title` yields
a `None` title on the candidate. -/
def parseDoc (doc : OLDoc) : IdentificationResult :=
  let res := { IdentificationResult.empty with
    source := "openlibrary"
    title := doc.title
    author := (doc.author_name.getD [none]).headD none
    year := some (match doc.first_publish_year with
                  | some y => toString y
                  | none => "")
    isbn := (doc.isbn.getD [none]).headD none
    openlibrary_id := doc.key }
  match doc.id_amazon with
  | some (a :: _) => { res with asin := some a }
  | _ => res

end OpenLibraryProvider

namespace MetadataAggregator

/-- `MetadataAggregator._calculate_score`.  `ratioFn` stands for
`thefuzz.fuzz.ratio` (an external pure string metric).  `none` models the
`AttributeError` raised by `.lower()` when either title is `None`; otherwise
the title ratio, averaged with the author ratio when both authors are
truthy. -/
def calculateScore (ratioFn : String → String → ℚ)
    (target candidate : IdentificationResult) : Option ℚ :=
  match target.title, candidate.title with
  | some tt, some ct =>
    let titleScore := ratioFn (pyLower tt) (pyLower ct)
    match target.author, candidate.author with
    | some ta, some ca =>
      if ta ≠ "" && ca ≠ "" then
        some ((titleScore + ratioFn (pyLower ta) (pyLower ca)) / 2)
      else some titleScore
    | _, _ => some titleScore
  | _, _ => none

/-- `MetadataAggregator._merge`: truthy description/year/isbn/asin/cover_url/
narrator of the new candidate overwrite the base; when the candidate's
confidence exceeds 90 its title and author overwrite the base as well.
The base's own `confidence` field is never written. -/
def mergeBest (base new : IdentificationResult) : IdentificationResult :=
  let b := base
  let b := if strTruthy new.description then { b with description := new.description } else b
  let b := if strTruthy new.year then { b with year := new.year } else b
  let b := if strTruthy new.isbn then { b with isbn := new.isbn } else b
  let b := if strTruthy new.asin then { b with asin := new.asin } else b
  let b := if strTruthy new.cover_url then { b with cover_url := new.cover_url } else b
  let b := if strTruthy new.narrator then { b with narrator := new.narrator } else b
  if new.confidence > 90 then { b with title := new.title, author := new.author } else b

/-- The candidate loop of `MetadataAggregator.enrich`.  In the source
`best_match` aliases `initial_result`, so each score is computed against the
running (already merged) best result; on a new maximum the candidate (with
its confidence set to the score) is merged into it. -/
def enrichGo (ratioFn : String → String → ℚ) :
    List IdentificationResult → IdentificationResult → ℚ → Option IdentificationResult
  | [], best, _ => some best
  | res :: rest, best, highest =>
    match calculateScore ratioFn best res with
    | none => none
    | some score =>
      if score > highest then
        enrichGo ratioFn rest (mergeBest best { res with confidence := score }) score
      else enrichGo ratioFn rest best highest

/-- `MetadataAggregator.enrich`, with the per-provider candidate lists
(the values of `provider.search(query, author)`) passed in explicitly.
Returns the seed unchanged when its title is falsy; `none` models an
uncaught exception inside the pass. -/
def enrich (ratioFn : String → String → ℚ) (initialResult : IdentificationResult)
    (providerResults : List (List IdentificationResult)) : Option IdentificationResult :=
  if strTruthy initialResult.title then
    enrichGo ratioFn providerResults.flatten initialResult 0
  else some initialResult

end MetadataAggregator

/-! ## src/monitor.py : StabilityChecker -/

namespace StabilityChecker

/-- The per-file tracking record of `StabilityChecker.tracked_files`. -/
structure FileState where
  last_size : Int
  last_mtime : Int
  stable_start_time : Option Int
  deriving Repr, DecidableEq

/-- The initial record installed by `StabilityChecker.add_file`. -/
def FileState.init : FileState :=
  { last_size := -1, last_mtime := -1, stable_start_time := none }

/-- One `os.stat` observation of a still-existing file during a
`StabilityChecker.check` pass. -/
structure Obs where
  time : Int
  size : Int
  mtime : Int
  deriving Repr, DecidableEq

/-- The body of `StabilityChecker.check` for one tracked file that still
exists: if `(size, mtime)` is unchanged, start or test the stability timer
(emitting once `now - stable_start_time ≥ duration`); otherwise store the
new sample and clear the timer.  The returned flag is "append to
`to_process` (and drop from tracking, hand to the callback)". -/
def checkStep (duration : Int) (st : FileState) (o : Obs) : FileState × Bool :=
  if o.size = st.last_size ∧ o.mtime = st.last_mtime then
    match st.stable_start_time with
    | none => ({ st with stable_start_time := some o.time }, false)
    | some s => if o.time - s ≥ duration then (st, true) else (st, false)
  else
    ({ last_size := o.size, last_mtime := o.mtime, stable_start_time := none }, false)

/-- Iterated `check` passes over one tracked file: returns the observation
at which the file is handed to the processing callback, if any. -/
def runChecks (duration : Int) (st : FileState) : List Obs → Option Obs
  | [] => none
  | o :: rest =>
    let (st', fire) := checkStep duration st o
    if fire then some o else runChecks duration st' rest

end StabilityChecker

/-! ## src/ingest.py : FileGrouper and IngestionManager -/

namespace FileGrouper

/-- One entry of `FileGrouper.groups` (`dirpath -> {'files', 'last_update'}`). -/
structure Group where
  files : List String
  last_update : Int
  deriving Repr, DecidableEq

/-- `FileGrouper.check_groups`: groups whose `last_update` is at least
`window` old are removed; each is handed to the callback with the member
files that still exist (`alive`), unless none survives.  Returns the
remaining mapping and the list of `(dirpath, valid_files)` callback
invocations, in iteration order. -/
def checkGroups (window now : Int) (alive : String → Bool)
    (groups : List (String × Group)) :
    List (String × Group) × List (String × List String) :=
  let expired : String × Group → Bool := fun g => now - g.2.last_update ≥ window
  let remaining := groups.filter (fun g => !expired g)
  let emissions := groups.filterMap (fun g =>
    if expired g then
      let valid := g.2.files.filter alive
      if valid ≠ [] then some (g.1, valid) else none
    else none)
  (remaining, emissions)

end FileGrouper

namespace IngestionManager

/-- Python `str.endswith`. -/
def pyEndsWith (s suffixStr : String) : Bool :=
  suffixStr.data.reverse.isPrefixOf s.data.reverse

/-- `IngestionManager.is_archive`. -/
def isArchive (filepath : String) : Bool :=
  pyEndsWith filepath ".zip" || pyEndsWith filepath ".tar" || pyEndsWith filepath ".tar.gz"

/-- What the archive file actually contains, as the `zipfile.is_zipfile` /
`tarfile.is_tarfile` content probes of `extract_archive` see it: a zip with
members, a tar with members, or neither. -/
inductive ArchiveContent where
  | zip (members : List String)
  | tar (members : List String)
  | invalid
  deriving Repr, DecidableEq

/-- Members of an archive (empty for content neither probe recognizes). -/
def ArchiveContent.members : ArchiveContent → List String
  | .zip ms => ms
  | .tar ms => ms
  | .invalid => []

/-- Outcome of `IngestionManager.extract_archive` on a path
`parent ++ "/" ++ name`. -/
structure ExtractOutcome where
  /-- The extraction directory the run computed and created, if it got there. -/
  destDir : Option String
  /-- Member names placed inside `destDir`. -/
  extracted : List String
  /-- Whether `os.remove(filepath)` ran (the archive is gone afterwards). -/
  archiveDeleted : Bool
  deriving Repr, DecidableEq

/-- `IngestionManager.extract_archive` for a path `parent/name`:
in dry-run mode only logs; otherwise creates `parent/stem(name)`, extracts
through the zip branch or the tar branch, and deletes the archive —
except that any exception from `extractall` (modelled by `extractFails`
for recognized content) is caught, leaving the archive in place. -/
def extractArchive (dryRun : Bool) (parent name : String)
    (content : ArchiveContent) (extractFails : Bool) : ExtractOutcome :=
  if dryRun then
    { destDir := none, extracted := [], archiveDeleted := false }
  else
    let destDir := parent ++ "/" ++ pySplitextStem name
    match content with
    | .zip ms =>
      if extractFails then
        { destDir := some destDir, extracted := [], archiveDeleted := false }
      else
        { destDir := some destDir, extracted := ms, archiveDeleted := true }
    | .tar ms =>
      if extractFails then
        { destDir := some destDir, extracted := [], archiveDeleted := false }
      else
        { destDir := some destDir, extracted := ms, archiveDeleted := true }
    | .invalid =>
      { destDir := some destDir, extracted := [], archiveDeleted := true }

end IngestionManager

/-! ## src/organizer.py : Organizer -/

/-- Python `x or default` on an optional string (truthiness fallback). -/
def pyOrStr (o : Option String) (dflt : String) : String :=
  match o with
  | some s => if s ≠ "" then s else dflt
  | none => dflt

/-- Stable insertion into a sorted list (later equal elements go after
earlier ones), used to model Python `sorted` on strings. -/
def pyInsert (a : String) : List String → List String
  | [] => [a]
  | b :: bs => if b ≤ a then b :: pyInsert a bs else a :: b :: bs

/-- Python `sorted` on a list of strings (stable, lexicographic). -/
def pySorted (l : List String) : List String :=
  l.foldl (fun acc x => pyInsert x acc) []

/-- Zero-pad to two digits, as the `{i+1:02d}` format in `organize`. -/
def pad2 (n : Nat) : String :=
  if n < 10 then "0" ++ toString n else toString n

namespace Organizer

/-- `Organizer._sanitize`: keep only alphanumerics, space, hyphen,
underscore, dot, then strip. -/
def sanitize (text : String) : String :=
  pyStrip ⟨text.data.filter
    (fun ch => ch.isAlphanum || ch = ' ' || ch = '-' || ch = '_' || ch = '.')⟩

/-- The relative destination path computed at the top of `organize`:
`author/series/title` when the series is truthy, else `author/title`,
each component sanitized (with the `or`-fallbacks of the source). -/
def relPath (metadata : IdentificationResult) : String :=
  let author := sanitize (pyOrStr metadata.author "Unknown Author")
  let title := sanitize (pyOrStr metadata.title "Unknown Title")
  let series := sanitize (pyOrStr metadata.series "")
  if strTruthy metadata.series then author ++ "/" ++ series ++ "/" ++ title
  else author ++ "/" ++ title

/-- The filesystem/network conditions and failure injections one call to
`Organizer.organize` can encounter.  Each `fail*` flag makes the
corresponding filesystem call raise. -/
structure OrganizeEnv where
  dryRun : Bool
  /-- `os.path.exists(staging_dir)` at step 2. -/
  stagingExists : Bool
  /-- `os.path.exists(final_dest)` at the promote step. -/
  destExists : Bool
  /-- `os.path.abspath(dirpath) == os.path.abspath(config.INPUT_DIR)`. -/
  dirpathIsInputRoot : Bool
  failCreateStaging : Bool
  failCopy : Bool
  failManifest : Bool
  failCover : Bool
  failPermissions : Bool
  failTags : Bool
  failMakeParent : Bool
  failRemoveDest : Bool
  failRename : Bool
  failCleanup : Bool
  deriving Repr, DecidableEq

/-- Effects one `organize` run performs, in order. -/
inductive OrgAction where
  | removedStaleStaging
  | createdStaging
  | copiedFile (dstName : String)
  | wroteManifest
  | downloadedCover
  | appliedPermissions
  | wroteTags
  | removedExistingDest
  | renamedToFinal
  | removedSourceDir
  | removedSourceFiles
  | loggedPromoteError
  deriving Repr, DecidableEq

/-- The staged file name for file index `i` (0-based) in `organize` step 3:
`"{title} - {NN}{ext}"` for a multi-file group, `"{title}{ext}"` for a
single file. -/
def stagedName (title : String) (count i : Nat) (origName : String) : String :=
  let ext := pySplitextExt origName
  if count > 1 then title ++ " - " ++ pad2 (i + 1) ++ ext else title ++ ext

/-- The `try/except` promote block of `organize` step 8: delete an existing
destination, rename staging into place, clean up the source; the `except`
arm only logs, so a failure ends the block with a `loggedPromoteError`
action instead of an exception. -/
def promoteBlock (env : OrganizeEnv) : List OrgAction :=
  if env.destExists ∧ env.failRemoveDest then [OrgAction.loggedPromoteError]
  else
    (if env.destExists then [OrgAction.removedExistingDest] else []) ++
    if env.failRename then [OrgAction.loggedPromoteError]
    else
      [OrgAction.renamedToFinal] ++
      if env.dirpathIsInputRoot then
        (if env.failCleanup then [OrgAction.loggedPromoteError]
         else [OrgAction.removedSourceFiles])
      else
        (if env.failCleanup then [OrgAction.loggedPromoteError]
         else [OrgAction.removedSourceDir])

/-- `Organizer.organize`.  `Except.error` is an exception propagated to the
caller; `Except.ok acts` is a normal return with the performed effects.
Steps 2 (staging rebuild), 3 (copy), 4 (manifest) raise through; steps 5-7
(cover, permissions, tags) catch their own failures; the promote block of
step 8 (delete existing destination, rename, source cleanup) is wrapped in
`try/except` that only logs, so its failures never escape. -/
def organize (env : OrganizeEnv) (files : List String)
    (metadata : IdentificationResult) : Except String (List OrgAction) :=
  if env.dryRun then Except.ok []
  else
    let title := sanitize (pyOrStr metadata.title "Unknown Title")
    -- step 2: rebuild staging
    if env.failCreateStaging then Except.error "staging"
    else
      let acts2 : List OrgAction :=
        (if env.stagingExists then [OrgAction.removedStaleStaging] else [])
          ++ [OrgAction.createdStaging]
      -- step 3: copy renamed files (sorted by original path)
      if env.failCopy then Except.error "copy"
      else
        let sortedFiles := pySorted files
        let acts3 := (List.range sortedFiles.length).map
          (fun i => OrgAction.copiedFile
            (stagedName title files.length i (pyBasename (sortedFiles.getD i ""))))
        -- step 4: metadata manifest
        if env.failManifest then Except.error "manifest"
        else
          let acts4 := [OrgAction.wroteManifest]
          -- step 5: cover download, failure logged
          let acts5 := if strTruthy metadata.cover_url then
              (if env.failCover then [] else [OrgAction.downloadedCover])
            else []
          -- step 6: permissions, failure logged
          let acts6 := if env.failPermissions then [] else [OrgAction.appliedPermissions]
          -- step 7: tags, per-file failures logged
          let acts7 := if env.failTags then [] else [OrgAction.wroteTags]
          -- step 8: ensure the parent of the final destination (outside the try)
          if env.failMakeParent then Except.error "makeparent"
          else
            Except.ok (acts2 ++ acts3 ++ acts4 ++ acts5 ++ acts6 ++ acts7 ++ promoteBlock env)

end Organizer

/-! ## src/main.py : AutoLibrarian.process_book -/

/-- The ledger record returned by `HistoryManager.get_state` as
`process_book` reads it (`content_hash` and `status` fields). -/
structure LedgerRecord where
  content_hash : Nat
  status : String
  deriving Repr, DecidableEq

namespace AutoLibrarian

/-- Operations `process_book` starts, in order. -/
inductive PBAction where
  | identification
  | enrichment
  | queueAdd
  | ledgerWritePending
  | movedToManual
  | ledgerWriteProcessed
  | organizeSubmitted
  deriving Repr, DecidableEq

/-- The processing body of `process_book` (after the history check):
identification, enrichment, then either hand-off to the review queue
(whose `add_item` mirrors a `pending` ledger write), or the
confidence-threshold routing to manual intervention (with a `processed`
ledger write), or an async submission to the organizer.  An exception from
identification or enrichment is caught by the surrounding `try` and ends
the run. -/
def processBody (webUiEnabled : Bool) (thresholdProbable : ℚ)
    (extract : String → IdentificationResult) (ratioFn : String → String → ℚ)
    (providerResults : List (List IdentificationResult))
    (dirpath : String) (files : List String) : List PBAction :=
  match Identifier.identify extract dirpath files with
  | none => [PBAction.identification]
  | some initialMetadata =>
    match MetadataAggregator.enrich ratioFn initialMetadata providerResults with
    | none => [PBAction.identification, PBAction.enrichment]
    | some finalMetadata =>
      if webUiEnabled then
        [PBAction.identification, PBAction.enrichment,
         PBAction.queueAdd, PBAction.ledgerWritePending]
      else if finalMetadata.confidence < thresholdProbable then
        [PBAction.identification, PBAction.enrichment,
         PBAction.movedToManual, PBAction.ledgerWriteProcessed]
      else
        [PBAction.identification, PBAction.enrichment, PBAction.organizeSubmitted]

/-- `AutoLibrarian.process_book`: consult the ledger record for the
directory key first — an unchanged hash with status `pending` or
`processed` returns immediately (no action at all); anything else runs the
processing body. -/
def processBook (state : Option LedgerRecord) (currentHash : Nat)
    (webUiEnabled : Bool) (thresholdProbable : ℚ)
    (extract : String → IdentificationResult) (ratioFn : String → String → ℚ)
    (providerResults : List (List IdentificationResult))
    (dirpath : String) (files : List String) : List PBAction :=
  match state with
  | some st =>
    if st.content_hash = currentHash ∧ (st.status = "pending" ∨ st.status = "processed") then
      []
    else
      processBody webUiEnabled thresholdProbable extract ratioFn providerResults dirpath files
  | none =>
    processBody webUiEnabled thresholdProbable extract ratioFn providerResults dirpath files

end AutoLibrarian

/-- Concrete tag extraction used in the C7 counterexample: the first audio
file yields a partial result (title only), the second yields nothing. -/
def extractPartialFirst : String → IdentificationResult := fun f =>
  if f = "a.mp3" then
    { IdentificationResult.empty with title := some "The Title", source := "tags" }
  else { IdentificationResult.empty with source := "tags" }

/-- Concrete tag extraction whose every result has both title and author. -/
def extractFull : String → IdentificationResult := fun _ =>
  { IdentificationResult.empty with
      title := some "The Title", author := some "The Author", source := "tags" }

/-- An exact-match stand-in for `fuzz.ratio` in concrete runs. -/
def ratioExact : String → String → ℚ := fun a b => if a = b then 100 else 0

/-- The organize environment of the C3 run: every filesystem step succeeds
except the final rename of staging into the destination. -/
def envRenameFails : Organizer.OrganizeEnv :=
  { dryRun := false, stagingExists := false, destExists := false,
    dirpathIsInputRoot := false, failCreateStaging := false, failCopy := false,
    failManifest := false, failCover := false, failPermissions := false,
    failTags := false, failMakeParent := false, failRemoveDest := false,
    failRename := true, failCleanup := false }

/-- Concrete metadata for organize runs. -/
def metaDune : IdentificationResult :=
  { IdentificationResult.empty with
      title := some "Dune", author := some "Frank Herbert", source := "merged" }

/-! ## Helper lemmas -/

theorem tagLoop_eq_of_find_none (extract : String → IdentificationResult) :
    ∀ (files : List String) (acc : IdentificationResult),
      files.find? (fun g => Identifier.isAudio g && strTruthy (extract g).title &&
        strTruthy (extract g).author) = none →
      Identifier.tagLoop extract acc files =
        (((files.filter Identifier.isAudio).getLast?.map extract).getD acc) := by
  intro files
  induction files with
  | nil => intro acc _; rfl
  | cons f rest ih =>
    intro acc hfind
    rcases hp : (Identifier.isAudio f && strTruthy (extract f).title &&
        strTruthy (extract f).author) with _ | _
    · have hrest : rest.find? (fun g => Identifier.isAudio g && strTruthy (extract g).title &&
          strTruthy (extract g).author) = none := by
        rw [List.find?_cons, hp] at hfind
        exact hfind
      by_cases ha : Identifier.isAudio f
      · have hboth : (strTruthy (extract f).title && strTruthy (extract f).author) = false := by
          rw [ha, Bool.true_and] at hp
          exact hp
        have step : Identifier.tagLoop extract acc (f :: rest) =
            Identifier.tagLoop extract (extract f) rest := by
          simp only [Identifier.tagLoop, ha, if_true, hboth, Bool.false_eq_true, if_false]
        rw [step, ih (extract f) hrest]
        have hfilter : (f :: rest).filter Identifier.isAudio =
            f :: rest.filter Identifier.isAudio := by
          simp [List.filter_cons, ha]
        rw [hfilter]
        rcases hl : (rest.filter Identifier.isAudio).getLast? with _ | g
        · have hnil : rest.filter Identifier.isAudio = [] := List.getLast?_eq_none_iff.mp hl
          simp [hnil]
        · rcases hcons : rest.filter Identifier.isAudio with _ | ⟨a, t⟩
          · rw [hcons] at hl; simp at hl
          · rw [hcons] at hl
            rw [List.getLast?_cons_cons, hl]
            simp [hl]
      · have hb : Identifier.isAudio f = false := by simpa using ha
        have step : Identifier.tagLoop extract acc (f :: rest) =
            Identifier.tagLoop extract acc rest := by
          simp only [Identifier.tagLoop, hb, Bool.false_eq_true, if_false]
        rw [step, ih acc hrest]
        simp [List.filter_cons, hb]
    · exfalso
      rw [List.find?_cons, hp] at hfind
      simp at hfind

theorem tagLoop_eq_of_find_some (extract : String → IdentificationResult) :
    ∀ (files : List String) (acc : IdentificationResult) (f : String),
      files.find? (fun g => Identifier.isAudio g && strTruthy (extract g).title &&
        strTruthy (extract g).author) = some f →
      Identifier.tagLoop extract acc files = extract f := by
  intro files
  induction files with
  | nil => intro acc f h; simp at h
  | cons g rest ih =>
    intro acc f hfind
    rcases hp : (Identifier.isAudio g && strTruthy (extract g).title &&
        strTruthy (extract g).author) with _ | _
    · rw [List.find?_cons, hp] at hfind
      by_cases ha : Identifier.isAudio g
      · have hboth : (strTruthy (extract g).title && strTruthy (extract g).author) = false := by
          rw [ha, Bool.true_and] at hp
          exact hp
        have step : Identifier.tagLoop extract acc (g :: rest) =
            Identifier.tagLoop extract (extract g) rest := by
          simp only [Identifier.tagLoop, ha, if_true, hboth, Bool.false_eq_true, if_false]
        rw [step]; exact ih (extract g) f hfind
      · have hb : Identifier.isAudio g = false := by simpa using ha
        have step : Identifier.tagLoop extract acc (g :: rest) =
            Identifier.tagLoop extract acc rest := by
          simp only [Identifier.tagLoop, hb, Bool.false_eq_true, if_false]
        rw [step]; exact ih acc f hfind
    · rw [List.find?_cons, hp] at hfind
      simp at hfind
      subst hfind
      have hsplit := hp
      simp only [Bool.and_eq_true] at hsplit
      have step : Identifier.tagLoop extract acc (g :: rest) = extract g := by
        simp [Identifier.tagLoop, hsplit.1.1, hsplit.1.2, hsplit.2]
      exact step

/-- C7 counterexample: probing `["a.mp3", "b.mp3"]` where `a.mp3` yields a
non-empty partial result (a title) and `b.mp3` yields nothing; no file has
both title and author, and the loop keeps `b.mp3`'s empty extraction
instead of the first non-empty partial result. -/
theorem tag_probe_first_partial_counterexample :
    strTruthy (extractPartialFirst "a.mp3").title = true ∧
    (Identifier.tagLoop extractPartialFirst IdentificationResult.empty
      ["a.mp3", "b.mp3"]).title = none := by
  refine ⟨by decide, by decide⟩

/-- C7 (amended): tag probing stops at the first audio file whose extraction
has both a truthy title and a truthy author and returns that extraction;
when no probed file yields both, the result kept is the extraction of the
last audio file probed (the loop overwrites the running result at every
audio file), or the fresh empty result when there is no audio file. -/
theorem tag_probe_stop_and_fallback (extract : String → IdentificationResult)
    (files : List String) :
    (∀ f, files.find? (fun g => Identifier.isAudio g && strTruthy (extract g).title &&
        strTruthy (extract g).author) = some f →
      Identifier.tagLoop extract IdentificationResult.empty files = extract f) ∧
    (files.find? (fun g => Identifier.isAudio g && strTruthy (extract g).title &&
        strTruthy (extract g).author) = none →
      Identifier.tagLoop extract IdentificationResult.empty files =
        (((files.filter Identifier.isAudio).getLast?.map extract).getD
          IdentificationResult.empty)) :=
  ⟨fun f h => tagLoop_eq_of_find_some extract files IdentificationResult.empty f h,
   fun h => tagLoop_eq_of_find_none extract files IdentificationResult.empty h⟩

/-- Witness for the C7 theorem at a concrete input. -/
theorem tag_probe_stop_and_fallback_witness :
    ["x.mp3", "y.mp3"].find? (fun g => Identifier.isAudio g &&
        strTruthy (extractFull g).title && strTruthy (extractFull g).author) = some "x.mp3" ∧
    Identifier.tagLoop extractFull IdentificationResult.empty ["x.mp3", "y.mp3"] =
      extractFull "x.mp3" :=
  ⟨by decide,
   (tag_probe_stop_and_fallback extractFull ["x.mp3", "y.mp3"]).1 "x.mp3" (by decide)⟩

/-- C8 counterexample: on the seed text `"A - B - C"` the split assigns only
the second segment to the title — the title is `"B"`, not the entire
remainder `"B - C"`. -/
theorem extract_from_string_remainder_counterexample :
    (Identifier.extractFromString "A - B - C").author = some "A" ∧
    (Identifier.extractFromString "A - B - C").title = some "B" ∧
    (Identifier.extractFromString "A - B - C").title ≠ some "B - C" := by
  refine ⟨by decide, by decide, by decide⟩

/-- C8 (amended): after noise stripping, underscore replacement and trimming,
a text containing `" - "` is split on every occurrence; the first segment
(stripped) becomes the author and the second segment alone (stripped)
becomes the title, any further segments being discarded; a text without the
separator becomes the whole title with no author. -/
theorem extract_from_string_split_assignment (text : String) :
    (2 ≤ (pySplit " - " (Identifier.cleanedText text)).length →
      (Identifier.extractFromString text).author =
        some (pyStrip ((pySplit " - " (Identifier.cleanedText text)).getD 0 "")) ∧
      (Identifier.extractFromString text).title =
        some (pyStrip ((pySplit " - " (Identifier.cleanedText text)).getD 1 ""))) ∧
    ((pySplit " - " (Identifier.cleanedText text)).length < 2 →
      (Identifier.extractFromString text).author = none ∧
      (Identifier.extractFromString text).title =
        some (pyStrip (Identifier.cleanedText text))) := by
  rcases h : pySplit " - " (Identifier.cleanedText text) with _ | ⟨p0, _ | ⟨p1, rest⟩⟩
  · constructor
    · intro hl; simp at hl
    · intro _
      constructor <;> simp [Identifier.extractFromString, h, IdentificationResult.empty]
  · constructor
    · intro hl; simp at hl
    · intro _
      constructor <;> simp [Identifier.extractFromString, h, IdentificationResult.empty]
  · constructor
    · intro _
      constructor <;> simp [Identifier.extractFromString, h, IdentificationResult.empty]
    · intro hl
      simp only [List.length_cons] at hl
      omega

/-- Witness for the C8 theorem at a concrete input. -/
theorem extract_from_string_split_assignment_witness :
    2 ≤ (pySplit " - " (Identifier.cleanedText "Frank Herbert - Dune")).length ∧
    (Identifier.extractFromString "Frank Herbert - Dune").author =
      some (pyStrip ((pySplit " - " (Identifier.cleanedText "Frank Herbert - Dune")).getD 0 "")) ∧
    (Identifier.extractFromString "Frank Herbert - Dune").title =
      some (pyStrip ((pySplit " - " (Identifier.cleanedText "Frank Herbert - Dune")).getD 1 "")) :=
  ⟨by decide, (extract_from_string_split_assignment "Frank Herbert - Dune").1 (by decide)⟩

/-- C9: `_merge_results` takes title, author and year from the tag result
when truthy and from the filename result otherwise, takes asin only from the
tag result, and marks the source as `merged`. -/
theorem merge_results_tag_priority (tags filename : IdentificationResult) :
    (Identifier.mergeResults tags filename).title =
      (if strTruthy tags.title then tags.title else filename.title) ∧
    (Identifier.mergeResults tags filename).author =
      (if strTruthy tags.author then tags.author else filename.author) ∧
    (Identifier.mergeResults tags filename).year =
      (if strTruthy tags.year then tags.year else filename.year) ∧
    (Identifier.mergeResults tags filename).asin = tags.asin ∧
    (Identifier.mergeResults tags filename).source = "merged" :=
  ⟨rfl, rfl, rfl, rfl, rfl⟩

set_option maxHeartbeats 1000000 in
/-- C1: at a seed titled "Dune" (confidence 0) and a single provider
candidate also titled "Dune", the highest observed match score is 100, yet
the result `enrich` returns still has confidence 0 — neither `enrich` nor
`_merge` ever writes the score into the running best result's `confidence`
field, contradicting the specified `confidence = highest score observed`. -/
theorem enrich_confidence_never_written :
    MetadataAggregator.calculateScore ratioExact
      { IdentificationResult.empty with title := some "Dune" }
      { IdentificationResult.empty with title := some "Dune", source := "openlibrary" }
      = some 100 ∧
    (MetadataAggregator.enrich ratioExact
      { IdentificationResult.empty with title := some "Dune" }
      [[{ IdentificationResult.empty with title := some "Dune", source := "openlibrary" }]]).map
        IdentificationResult.confidence = some 0 := by
  refine ⟨by decide, by decide⟩

theorem mergeBest_title_eq (b n : IdentificationResult) :
    (MetadataAggregator.mergeBest b n).title =
      if n.confidence > 90 then n.title else b.title := by
  by_cases h : n.confidence > 90 <;>
    simp [MetadataAggregator.mergeBest, h, apply_ite IdentificationResult.title]

theorem calculateScore_isSome (ratioFn : String → String → ℚ)
    (target cand : IdentificationResult)
    (h1 : target.title ≠ none) (h2 : cand.title ≠ none) :
    ∃ q, MetadataAggregator.calculateScore ratioFn target cand = some q := by
  obtain ⟨tt, htt⟩ := Option.ne_none_iff_exists'.mp h1
  obtain ⟨ct, hct⟩ := Option.ne_none_iff_exists'.mp h2
  simp only [MetadataAggregator.calculateScore, htt, hct]
  rcases ha : target.author with _ | ta <;> rcases hb : cand.author with _ | ca
  · exact ⟨_, rfl⟩
  · exact ⟨_, rfl⟩
  · exact ⟨_, rfl⟩
  · dsimp only
    split_ifs <;> exact ⟨_, rfl⟩

theorem enrichGo_isSome (ratioFn : String → String → ℚ) :
    ∀ (cands : List IdentificationResult) (best : IdentificationResult) (highest : ℚ),
      best.title ≠ none → (∀ c ∈ cands, c.title ≠ none) →
      (MetadataAggregator.enrichGo ratioFn cands best highest).isSome = true := by
  intro cands
  induction cands with
  | nil => intro best highest _ _; simp [MetadataAggregator.enrichGo]
  | cons c rest ih =>
    intro best highest hbt hall
    have hct : c.title ≠ none := hall c (by simp)
    obtain ⟨q, hq⟩ := calculateScore_isSome ratioFn best c hbt hct
    have hrest : ∀ c' ∈ rest, c'.title ≠ none := fun c' hc' => hall c' (by simp [hc'])
    simp only [MetadataAggregator.enrichGo, hq]
    by_cases hgt : q > highest
    · simp only [hgt, if_true]
      apply ih
      · rw [mergeBest_title_eq]
        split_ifs
        · exact hct
        · exact hbt
      · exact hrest
    · simp only [hgt, if_false]
      exact ih best highest hbt hrest

/-- C10: the enrichment pass is total exactly under the precondition that
every provider candidate carries a non-`None` title: with a truthy seed
title and all candidate titles present `enrich` returns a result, while a
candidate parsed from an OpenLibrary document without a `title` key (whose
`.get` yields `None`) makes the score computation's `.lower()` raise, and
the whole pass with it. -/
theorem enrich_requires_candidate_titles :
    (∀ (ratioFn : String → String → ℚ) (seed : IdentificationResult)
        (lists : List (List IdentificationResult)),
      strTruthy seed.title = true →
      (∀ c ∈ lists.flatten, c.title ≠ none) →
      (MetadataAggregator.enrich ratioFn seed lists).isSome = true) ∧
    ((OpenLibraryProvider.parseDoc {}).title = none ∧
      MetadataAggregator.enrich (fun _ _ => (50 : ℚ))
        { IdentificationResult.empty with title := some "Dune" }
        [[OpenLibraryProvider.parseDoc {}]] = none) := by
  refine ⟨?_, by decide, by decide⟩
  intro ratioFn seed lists hseed hall
  have hst : seed.title ≠ none := by
    rcases h : seed.title with _ | t
    · rw [h] at hseed; simp [strTruthy] at hseed
    · simp
  simp only [MetadataAggregator.enrich, hseed, if_true]
  exact enrichGo_isSome ratioFn lists.flatten seed 0 hst hall

/-- Witness for the totality half of the C10 theorem at a concrete input. -/
theorem enrich_requires_candidate_titles_witness :
    strTruthy ({ IdentificationResult.empty with title := some "Dune"}).title = true ∧
    (∀ c ∈ ([[{ IdentificationResult.empty with title := some "Moby Dick" }]] :
        List (List IdentificationResult)).flatten, c.title ≠ none) ∧
    (MetadataAggregator.enrich ratioExact
      { IdentificationResult.empty with title := some "Dune" }
      [[{ IdentificationResult.empty with title := some "Moby Dick" }]]).isSome = true :=
  ⟨by decide, by decide,
   enrich_requires_candidate_titles.1 ratioExact
     { IdentificationResult.empty with title := some "Dune" }
     [[{ IdentificationResult.empty with title := some "Moby Dick" }]]
     (by decide) (by decide)⟩

/-- C5: for a non-dry-run call on an archive path `parent/name`, the archive
file is deleted exactly when no extraction error occurs, in which case all
archive members are extracted into the subdirectory named after the archive
inside its parent directory; on any extraction error the archive file is
left in place. -/
theorem extract_archive_delete_iff_success (parent name : String)
    (content : IngestionManager.ArchiveContent) (extractFails : Bool)
    (harch : IngestionManager.isArchive name = true) :
    ((extractFails = true ∧ content ≠ IngestionManager.ArchiveContent.invalid) →
      (IngestionManager.extractArchive false parent name content extractFails).archiveDeleted
        = false) ∧
    (¬ (extractFails = true ∧ content ≠ IngestionManager.ArchiveContent.invalid) →
      (IngestionManager.extractArchive false parent name content extractFails).archiveDeleted
        = true ∧
      (IngestionManager.extractArchive false parent name content extractFails).extracted
        = content.members ∧
      (IngestionManager.extractArchive false parent name content extractFails).destDir
        = some (parent ++ "/" ++ pySplitextStem name)) := by
  constructor
  · rintro ⟨hf, hinv⟩
    subst hf
    rcases content with ms | ms | _
    · simp [IngestionManager.extractArchive]
    · simp [IngestionManager.extractArchive]
    · exact absurd rfl hinv
  · intro hn
    rcases content with ms | ms | _
    · have hf : extractFails = false := by
        rcases extractFails with _ | _
        · rfl
        · exact absurd ⟨rfl, by simp⟩ hn
      subst hf
      simp [IngestionManager.extractArchive, IngestionManager.ArchiveContent.members]
    · have hf : extractFails = false := by
        rcases extractFails with _ | _
        · rfl
        · exact absurd ⟨rfl, by simp⟩ hn
      subst hf
      simp [IngestionManager.extractArchive, IngestionManager.ArchiveContent.members]
    · rcases extractFails with _ | _ <;>
        simp [IngestionManager.extractArchive, IngestionManager.ArchiveContent.members]

/-- Witness for the C5 theorem at a concrete input. -/
theorem extract_archive_delete_iff_success_witness :
    IngestionManager.isArchive "book.zip" = true ∧
    (¬ (false = true ∧ IngestionManager.ArchiveContent.zip ["one.mp3", "two.mp3"]
        ≠ IngestionManager.ArchiveContent.invalid) →
      (IngestionManager.extractArchive false "/data/input" "book.zip"
        (IngestionManager.ArchiveContent.zip ["one.mp3", "two.mp3"]) false).archiveDeleted
        = true ∧
      (IngestionManager.extractArchive false "/data/input" "book.zip"
        (IngestionManager.ArchiveContent.zip ["one.mp3", "two.mp3"]) false).extracted
        = (IngestionManager.ArchiveContent.zip ["one.mp3", "two.mp3"]).members ∧
      (IngestionManager.extractArchive false "/data/input" "book.zip"
        (IngestionManager.ArchiveContent.zip ["one.mp3", "two.mp3"]) false).destDir
        = some ("/data/input" ++ "/" ++ pySplitextStem "book.zip")) :=
  ⟨by decide,
   (extract_archive_delete_iff_success "/data/input" "book.zip"
     (IngestionManager.ArchiveContent.zip ["one.mp3", "two.mp3"]) false (by decide)).2⟩

theorem nodup_keys_mem_unique {α β : Type} [DecidableEq α] :
    ∀ (l : List (α × β)) (a : α) (b b' : β),
      (l.map Prod.fst).Nodup → (a, b) ∈ l → (a, b') ∈ l → b = b' := by
  intro l
  induction l with
  | nil => intro a b b' _ h _; simp at h
  | cons p rest ih =>
    intro a b b' hnd hb hb'
    rw [List.map_cons, List.nodup_cons] at hnd
    rcases List.mem_cons.mp hb with h1 | h1 <;> rcases List.mem_cons.mp hb' with h2 | h2
    · rw [← h1] at h2
      exact (congrArg Prod.snd h2).symm
    · exfalso
      apply hnd.1
      have : a = p.1 := by rw [← h1]
      rw [← this]
      exact List.mem_map.mpr ⟨(a, b'), h2, rfl⟩
    · exfalso
      apply hnd.1
      have : a = p.1 := by rw [← h2]
      rw [← this]
      exact List.mem_map.mpr ⟨(a, b), h1, rfl⟩
    · exact ih a b b' hnd.2 h1 h2

/-- C6: any group whose last activity is at least the grouping window old is
removed from the mapping by `check_groups`; it is emitted with exactly its
still-existing member files when at least one survives, emitted not at all
when none survives, and no emitted group is ever empty. -/
theorem check_groups_emission (window now : Int) (alive : String → Bool)
    (groups : List (String × FileGrouper.Group)) (d : String) (g : FileGrouper.Group)
    (hnd : (groups.map Prod.fst).Nodup)
    (hmem : (d, g) ∈ groups)
    (hexp : now - g.last_update ≥ window) :
    (∀ g', (d, g') ∉ (FileGrouper.checkGroups window now alive groups).1) ∧
    (g.files.filter alive ≠ [] →
      (d, g.files.filter alive) ∈ (FileGrouper.checkGroups window now alive groups).2) ∧
    (g.files.filter alive = [] →
      ∀ fs, (d, fs) ∉ (FileGrouper.checkGroups window now alive groups).2) ∧
    (∀ p ∈ (FileGrouper.checkGroups window now alive groups).2, p.2 ≠ []) := by
  refine ⟨?_, ?_, ?_, ?_⟩
  · intro g' hin
    simp only [FileGrouper.checkGroups] at hin
    have h2 := List.mem_filter.mp hin
    have hg' : g' = g := nodup_keys_mem_unique groups d g' g hnd h2.1 hmem
    subst hg'
    simp [hexp] at h2
  · intro hne
    simp only [FileGrouper.checkGroups]
    apply List.mem_filterMap.mpr
    refine ⟨(d, g), hmem, ?_⟩
    simp [hexp, hne]
  · intro hnil fs hin
    simp only [FileGrouper.checkGroups] at hin
    obtain ⟨⟨d', g'⟩, hmem', heq⟩ := List.mem_filterMap.mp hin
    by_cases he : now - g'.last_update ≥ window
    · by_cases hv : g'.files.filter alive ≠ []
      · simp [he, hv] at heq
        have hd : d' = d := heq.1
        subst hd
        have hgg : g' = g := nodup_keys_mem_unique groups d' g' g hnd hmem' hmem
        subst hgg
        exact absurd hnil hv
      · simp [he, hv] at heq
    · simp [he] at heq
  · intro p hp
    simp only [FileGrouper.checkGroups] at hp
    obtain ⟨⟨d', g'⟩, hmem', heq⟩ := List.mem_filterMap.mp hp
    by_cases he : now - g'.last_update ≥ window
    · by_cases hv : g'.files.filter alive ≠ []
      · simp [he, hv] at heq
        rw [← heq]
        exact hv
      · simp [he, hv] at heq
    · simp [he] at heq

/-- Witness for the C6 theorem at a concrete input. -/
theorem check_groups_emission_witness :
    ((([("/in/B", ⟨["/in/B/x.mp3", "/in/B/gone.mp3"], 0⟩)] :
        List (String × FileGrouper.Group)).map Prod.fst).Nodup ∧
      ("/in/B", (⟨["/in/B/x.mp3", "/in/B/gone.mp3"], 0⟩ : FileGrouper.Group)) ∈
        ([("/in/B", ⟨["/in/B/x.mp3", "/in/B/gone.mp3"], 0⟩)] :
          List (String × FileGrouper.Group)) ∧
      (10 : Int) - (0 : Int) ≥ 5) ∧
    ((["/in/B/x.mp3", "/in/B/gone.mp3"].filter (fun f => f = "/in/B/x.mp3") ≠ [] →
      ("/in/B", ["/in/B/x.mp3", "/in/B/gone.mp3"].filter (fun f => f = "/in/B/x.mp3")) ∈
        (FileGrouper.checkGroups 5 10 (fun f => f = "/in/B/x.mp3")
          [("/in/B", ⟨["/in/B/x.mp3", "/in/B/gone.mp3"], 0⟩)]).2)) :=
  ⟨⟨by decide, by decide, by decide⟩,
   (check_groups_emission 5 10 (fun f => f = "/in/B/x.mp3")
      [("/in/B", ⟨["/in/B/x.mp3", "/in/B/gone.mp3"], 0⟩)]
      "/in/B" ⟨["/in/B/x.mp3", "/in/B/gone.mp3"], 0⟩
      (by decide) (by decide) (by decide)).2.1⟩

theorem identification_mem_processBody (webUiEnabled : Bool) (thresholdProbable : ℚ)
    (extract : String → IdentificationResult) (ratioFn : String → String → ℚ)
    (providerResults : List (List IdentificationResult))
    (dirpath : String) (files : List String) :
    AutoLibrarian.PBAction.identification ∈
      AutoLibrarian.processBody webUiEnabled thresholdProbable extract ratioFn
        providerResults dirpath files := by
  unfold AutoLibrarian.processBody
  rcases hid : Identifier.identify extract dirpath files with _ | r
  · simp
  · dsimp only
    rcases hen : MetadataAggregator.enrich ratioFn r providerResults with _ | fm
    · simp
    · by_cases h1 : webUiEnabled <;> by_cases h2 : fm.confidence < thresholdProbable <;>
        simp [h1, h2]

/-- C2: when the ledger record for the directory key has a content hash
equal to the current hash and status `pending` or `processed`,
`process_book` returns at once, performing no identification, enrichment,
organization, queue or ledger operation at all; when the stored hash
differs from the current hash the group is reprocessed (the processing
body runs, starting with identification). -/
theorem process_book_skip_unchanged (st : LedgerRecord) (currentHash : Nat)
    (webUiEnabled : Bool) (thresholdProbable : ℚ)
    (extract : String → IdentificationResult) (ratioFn : String → String → ℚ)
    (providerResults : List (List IdentificationResult))
    (dirpath : String) (files : List String) :
    (st.content_hash = currentHash → (st.status = "pending" ∨ st.status = "processed") →
      AutoLibrarian.processBook (some st) currentHash webUiEnabled thresholdProbable
        extract ratioFn providerResults dirpath files = []) ∧
    (st.content_hash ≠ currentHash →
      AutoLibrarian.PBAction.identification ∈
        AutoLibrarian.processBook (some st) currentHash webUiEnabled thresholdProbable
          extract ratioFn providerResults dirpath files) := by
  constructor
  · intro h1 h2
    simp [AutoLibrarian.processBook, h1, h2]
  · intro h1
    have hcond : ¬ (st.content_hash = currentHash ∧
        (st.status = "pending" ∨ st.status = "processed")) := fun hc => h1 hc.1
    simp only [AutoLibrarian.processBook, hcond, if_false]
    exact identification_mem_processBody webUiEnabled thresholdProbable extract ratioFn
      providerResults dirpath files

/-- Witness for the C2 theorem at concrete inputs (both directions). -/
theorem process_book_skip_unchanged_witness :
    ((7 : Nat) = 7 ∧ (("processed" : String) = "pending" ∨ ("processed" : String) = "processed") ∧
      AutoLibrarian.processBook (some ⟨7, "processed"⟩) 7 true 70 extractFull ratioExact
        [] "/data/input/B" ["/data/input/B/x.mp3"] = []) ∧
    ((9 : Nat) ≠ 7 ∧
      AutoLibrarian.PBAction.identification ∈
        AutoLibrarian.processBook (some ⟨9, "processed"⟩) 7 true 70 extractFull ratioExact
          [] "/data/input/B" ["/data/input/B/x.mp3"]) :=
  ⟨⟨rfl, Or.inr rfl,
    (process_book_skip_unchanged ⟨7, "processed"⟩ 7 true 70 extractFull ratioExact
      [] "/data/input/B" ["/data/input/B/x.mp3"]).1 rfl (Or.inr rfl)⟩,
   ⟨by decide,
    (process_book_skip_unchanged ⟨9, "processed"⟩ 7 true 70 extractFull ratioExact
      [] "/data/input/B" ["/data/input/B/x.mp3"]).2 (by decide)⟩⟩

set_option maxHeartbeats 1000000 in
/-- C3 counterexample: a non-dry-run organize call whose final rename (the
atomic promote) raises returns normally — `ok` with a logged promote error
— instead of propagating the exception to the caller. -/
theorem organize_promote_exception_counterexample :
    envRenameFails.failRename = true ∧
    Organizer.organize envRenameFails ["/data/input/B/x.mp3"] metaDune
      = Except.ok
          [Organizer.OrgAction.createdStaging, Organizer.OrgAction.copiedFile "Dune.mp3",
           Organizer.OrgAction.wroteManifest, Organizer.OrgAction.appliedPermissions,
           Organizer.OrgAction.wroteTags, Organizer.OrgAction.loggedPromoteError] := by
  refine ⟨rfl, by rfl⟩

/-- C3 (amended): an exception raised during the atomic-promote step
(deleting an existing destination, renaming staging into place, cleaning up
the source) is caught inside `organize` and only logged: provided no earlier
unguarded step (staging rebuild, copy, manifest, destination-parent
creation) raised, `organize` returns normally whatever happens in the
promote block, the failed promote leaves no completed rename behind, and
nothing is rolled back; the caller observes no failure. -/
theorem organize_promote_error_swallowed (env : Organizer.OrganizeEnv)
    (files : List String) (metadata : IdentificationResult)
    (h1 : env.dryRun = false) (h2 : env.failCreateStaging = false)
    (h3 : env.failCopy = false) (h4 : env.failManifest = false)
    (h5 : env.failMakeParent = false) :
    (∃ acts, Organizer.organize env files metadata = Except.ok acts) ∧
    (env.failRename = true →
      Organizer.OrgAction.renamedToFinal ∉ Organizer.promoteBlock env ∧
      Organizer.OrgAction.loggedPromoteError ∈ Organizer.promoteBlock env) := by
  constructor
  · simp only [Organizer.organize, h1, h2, h3, h4, h5, Bool.false_eq_true, if_false]
    exact ⟨_, rfl⟩
  · intro hr
    by_cases hd : env.destExists ∧ env.failRemoveDest
    · have hb : Organizer.promoteBlock env = [Organizer.OrgAction.loggedPromoteError] := by
        unfold Organizer.promoteBlock
        rw [if_pos hd]
      rw [hb]
      exact ⟨by simp, by simp⟩
    · have hb : Organizer.promoteBlock env =
          (if env.destExists then [Organizer.OrgAction.removedExistingDest] else []) ++
            [Organizer.OrgAction.loggedPromoteError] := by
        unfold Organizer.promoteBlock
        rw [if_neg hd, hr]
        simp
      rw [hb]
      by_cases he : env.destExists <;> simp [he]

/-- Witness for the C3 theorem at a concrete input. -/
theorem organize_promote_error_swallowed_witness :
    envRenameFails.dryRun = false ∧ envRenameFails.failCreateStaging = false ∧
    envRenameFails.failCopy = false ∧ envRenameFails.failManifest = false ∧
    envRenameFails.failMakeParent = false ∧
    ((∃ acts, Organizer.organize envRenameFails ["/data/input/B/x.mp3"] metaDune
        = Except.ok acts) ∧
      (envRenameFails.failRename = true →
        Organizer.OrgAction.renamedToFinal ∉ Organizer.promoteBlock envRenameFails ∧
        Organizer.OrgAction.loggedPromoteError ∈ Organizer.promoteBlock envRenameFails)) :=
  ⟨rfl, rfl, rfl, rfl, rfl,
   organize_promote_error_swallowed envRenameFails ["/data/input/B/x.mp3"] metaDune
     rfl rfl rfl rfl rfl⟩

theorem runChecks_window (duration : Int) :
    ∀ (rest pre : List StabilityChecker.Obs) (st : StabilityChecker.FileState)
      (o : StabilityChecker.Obs),
      (pre ++ rest).Pairwise (fun a b => a.time < b.time) →
      (∀ s, st.stable_start_time = some s →
        (∃ o' ∈ pre, o'.time = s) ∧
        ∀ o' ∈ pre, s ≤ o'.time → o'.size = st.last_size ∧ o'.mtime = st.last_mtime) →
      StabilityChecker.runChecks duration st rest = some o →
      ∃ s, s + duration ≤ o.time ∧
        (∃ o' ∈ pre ++ rest, o'.time = s ∧ o'.size = o.size ∧ o'.mtime = o.mtime) ∧
        ∀ o' ∈ pre ++ rest, s ≤ o'.time → o'.time ≤ o.time →
          o'.size = o.size ∧ o'.mtime = o.mtime := by
  intro rest
  induction rest with
  | nil =>
    intro pre st o _ _ hrun
    simp [StabilityChecker.runChecks] at hrun
  | cons o1 rest' ih =>
    intro pre st o hpw hinv hrun
    have hassoc : pre ++ o1 :: rest' = (pre ++ [o1]) ++ rest' := by simp
    have hpre_lt : ∀ a ∈ pre, ∀ b ∈ o1 :: rest', a.time < b.time :=
      (List.pairwise_append.mp hpw).2.2
    have ho1_lt : ∀ b ∈ rest', o1.time < b.time := by
      have := (List.pairwise_append.mp hpw).2.1
      exact (List.pairwise_cons.mp this).1
    by_cases hpair : o1.size = st.last_size ∧ o1.mtime = st.last_mtime
    · rcases hss : st.stable_start_time with _ | s0
      · -- first unchanged observation: the timer starts now
        have hcs : StabilityChecker.checkStep duration st o1 =
            ({ st with stable_start_time := some o1.time }, false) := by
          simp [StabilityChecker.checkStep, hpair, hss]
        rw [StabilityChecker.runChecks, hcs] at hrun
        simp only [Bool.false_eq_true, if_false] at hrun
        have hres := ih (pre ++ [o1]) { st with stable_start_time := some o1.time } o
          (by rw [← hassoc]; exact hpw)
          (by
            intro s hs
            simp only [Option.some.injEq] at hs
            constructor
            · exact ⟨o1, by simp, by rw [← hs]⟩
            · intro o' ho' hle
              rcases List.mem_append.mp ho' with hin | hin
              · exfalso
                have := hpre_lt o' hin o1 (by simp)
                rw [← hs] at hle
                omega
              · have : o' = o1 := by simpa using hin
                subst this
                exact ⟨hpair.1, hpair.2⟩)
          hrun
        rw [← hassoc] at hres
        exact hres
      · by_cases hfire : o1.time - s0 ≥ duration
        · -- emission
          have hcs : StabilityChecker.checkStep duration st o1 = (st, true) := by
            simp [StabilityChecker.checkStep, hpair, hss, hfire]
          rw [StabilityChecker.runChecks, hcs] at hrun
          simp only [if_true] at hrun
          have ho : o = o1 := by
            have := hrun
            simp at this
            exact this.symm
          subst ho
          obtain ⟨⟨ow, how, howt⟩, hall⟩ := hinv s0 hss
          have howp := hall ow how (by rw [howt])
          refine ⟨s0, by omega, ⟨ow, List.mem_append.mpr (Or.inl how),
            howt, by rw [howp.1, hpair.1], by rw [howp.2, hpair.2]⟩, ?_⟩
          intro o' ho' hle hge
          rcases List.mem_append.mp ho' with hin | hin
          · have := hall o' hin hle
            exact ⟨by rw [this.1, hpair.1], by rw [this.2, hpair.2]⟩
          · rcases List.mem_cons.mp hin with h1 | h1
            · subst h1; exact ⟨rfl, rfl⟩
            · exfalso
              have := ho1_lt o' h1
              omega
        · -- timer running but not yet elapsed
          have hcs : StabilityChecker.checkStep duration st o1 = (st, false) := by
            simp [StabilityChecker.checkStep, hpair, hss, hfire]
          rw [StabilityChecker.runChecks, hcs] at hrun
          simp only [Bool.false_eq_true, if_false] at hrun
          have hres := ih (pre ++ [o1]) st o
            (by rw [← hassoc]; exact hpw)
            (by
              intro s hs
              obtain ⟨⟨ow, how, howt⟩, hall⟩ := hinv s hs
              constructor
              · exact ⟨ow, List.mem_append.mpr (Or.inl how), howt⟩
              · intro o' ho' hle
                rcases List.mem_append.mp ho' with hin | hin
                · exact hall o' hin hle
                · have : o' = o1 := by simpa using hin
                  subst this
                  exact ⟨hpair.1, hpair.2⟩)
            hrun
          rw [← hassoc] at hres
          exact hres
    · -- sample changed: store it and clear the timer
      have hcs : StabilityChecker.checkStep duration st o1 =
          ({ last_size := o1.size, last_mtime := o1.mtime, stable_start_time := none }, false) := by
        simp only [StabilityChecker.checkStep]
        rw [if_neg hpair]
      rw [StabilityChecker.runChecks, hcs] at hrun
      simp only [Bool.false_eq_true, if_false] at hrun
      have hres := ih (pre ++ [o1])
        { last_size := o1.size, last_mtime := o1.mtime, stable_start_time := none } o
        (by rw [← hassoc]; exact hpw)
        (by intro s hs; simp at hs)
        hrun
      rw [← hassoc] at hres
      exact hres

/-- C4: over any strictly time-ordered sequence of stat observations of a
tracked file, `check` hands the file to the processing callback at an
observation only when some earlier check time `s`, at least the stability
duration before it, started the timer and every observation from `s` up to
the emission carries the same `(size, mtime)` pair; and whenever one check
sees a changed `(size, mtime)` pair, it clears `stable_start_time` (and
does not emit), restarting the debounce from zero. -/
theorem stability_debounce (duration : Int) (trace : List StabilityChecker.Obs)
    (o : StabilityChecker.Obs)
    (hpw : trace.Pairwise (fun a b => a.time < b.time))
    (hrun : StabilityChecker.runChecks duration StabilityChecker.FileState.init trace
      = some o) :
    (∃ s, s + duration ≤ o.time ∧
      (∃ o' ∈ trace, o'.time = s ∧ o'.size = o.size ∧ o'.mtime = o.mtime) ∧
      ∀ o' ∈ trace, s ≤ o'.time → o'.time ≤ o.time →
        o'.size = o.size ∧ o'.mtime = o.mtime) ∧
    (∀ (st : StabilityChecker.FileState) (ob : StabilityChecker.Obs),
      ¬ (ob.size = st.last_size ∧ ob.mtime = st.last_mtime) →
      (StabilityChecker.checkStep duration st ob).1.stable_start_time = none ∧
      (StabilityChecker.checkStep duration st ob).2 = false) := by
  constructor
  · have := runChecks_window duration trace [] StabilityChecker.FileState.init o
      (by simpa using hpw)
      (by intro s hs; simp [StabilityChecker.FileState.init] at hs)
      hrun
    simpa using this
  · intro st ob hne
    constructor <;> simp [StabilityChecker.checkStep, hne]

/-- Witness for the C4 theorem: with stability duration 2 and observations
at times 0, 1, 3 (the pair changes at time 0 relative to the initial
sentinel sample, then stays fixed), the file is emitted at time 3 and the
window property holds. -/
theorem stability_debounce_witness :
    ([⟨0, 5, 7⟩, ⟨1, 5, 7⟩, ⟨3, 5, 7⟩] : List StabilityChecker.Obs).Pairwise
      (fun a b => a.time < b.time) ∧
    StabilityChecker.runChecks 2 StabilityChecker.FileState.init
      [⟨0, 5, 7⟩, ⟨1, 5, 7⟩, ⟨3, 5, 7⟩] = some ⟨3, 5, 7⟩ ∧
    (∃ s, s + 2 ≤ (3 : Int) ∧
      (∃ o' ∈ ([⟨0, 5, 7⟩, ⟨1, 5, 7⟩, ⟨3, 5, 7⟩] : List StabilityChecker.Obs),
        o'.time = s ∧ o'.size = 5 ∧ o'.mtime = 7) ∧
      ∀ o' ∈ ([⟨0, 5, 7⟩, ⟨1, 5, 7⟩, ⟨3, 5, 7⟩] : List StabilityChecker.Obs),
        s ≤ o'.time → o'.time ≤ 3 → o'.size = 5 ∧ o'.mtime = 7) :=
  ⟨by decide, by rfl,
   (stability_debounce 2 [⟨0, 5, 7⟩, ⟨1, 5, 7⟩, ⟨3, 5, 7⟩] ⟨3, 5, 7⟩
     (by decide) (by rfl)).1⟩
